import Mathlib

/-!
Verification development for the VigiBall player-valuation engine
(`src/engine/valuation.py`, backed by the SQLite table built in
`src/db_seeder.py`).

Shallow embedding conventions:
* SQL/pandas numeric values are modelled as `ℚ`; a SQL `NULL` / pandas `NaN`
  is `Option.none`.  Float arithmetic in the source only adds, multiplies,
  divides and compares finite values, so exact rational arithmetic is the
  faithful model; `NaN` propagation is modelled by `Option` propagation and
  the Python rule `NaN cmp x = False` is modelled by matching on `none`.
* The metric columns referenced by the engine's `STAT_PROFILES` form a fixed
  finite set, embedded as the inductive `StatName` together with its literal
  column-name string `statStr` (rate-metric detection in the source is a
  substring test on that string).
* SQLite `LIKE '%x%'` is case-insensitive for ASCII characters (default
  build, no `PRAGMA case_sensitive_like`); it is embedded as substring
  containment after ASCII upper-casing of both sides.  Query strings used by
  the engine contain no `%`/`_` wildcards.
* `scipy.stats.percentileofscore` is called with its default `kind='rank'`:
  `(left + right + (1 if right > left else 0)) * 50.0 / n`, returning `NaN`
  on an empty population (modelled as `none`).
-/

namespace VigiBall

/-- Does the first character list start with the second one? -/
def leadsWith : List Char → List Char → Bool
  | _, [] => true
  | [], _ :: _ => false
  | c :: cs, d :: ds => c == d && leadsWith cs ds

/-- Substring containment on character lists (Python's `in` on strings). -/
def hasSub : List Char → List Char → Bool
  | [], needle => needle.isEmpty
  | c :: t, needle => leadsWith (c :: t) needle || hasSub t needle

/-- Python `sub in hay` on strings (case-sensitive containment). -/
def strContains (hay sub : String) : Bool :=
  hasSub hay.data sub.data

/-- SQLite `value LIKE '%pat%'` with the default ASCII-case-insensitive
collation: containment after ASCII upper-casing of both sides. -/
def likeContains (pat value : String) : Bool :=
  hasSub (value.data.map Char.toUpper) (pat.data.map Char.toUpper)

/-- The metric columns referenced by `STAT_PROFILES` in
`src/engine/valuation.py` (column names from `src/db_seeder.py`). -/
inductive StatName where
  | xg | npg | xag | gca90 | prgc | succ_pct | touches_box
  | kp | prgp | cmp_pct | tkl_pct | interceptions | miscontrols | dispossessed
  | recoveries | prg_pass_dist | blocks | tkl_int | clearances
  | aerial_won_pct | def_act_att_3rd
  | psxg_plus_minus | save_pct | cross_stop_pct | launch_pct | opa_sweeper
  deriving DecidableEq

/-- The literal database column name of each metric. -/
def statStr : StatName → String
  | .xg => r"xg"
  | .npg => r"npg"
  | .xag => r"xag"
  | .gca90 => r"gca90"
  | .prgc => r"prgc"
  | .succ_pct => r"succ_pct"
  | .touches_box => r"touches_box"
  | .kp => r"kp"
  | .prgp => r"prgp"
  | .cmp_pct => r"cmp_pct"
  | .tkl_pct => r"tkl_pct"
  | .interceptions => r"interceptions"
  | .miscontrols => r"miscontrols"
  | .dispossessed => r"dispossessed"
  | .recoveries => r"recoveries"
  | .prg_pass_dist => r"prg_pass_dist"
  | .blocks => r"blocks"
  | .tkl_int => r"tkl_int"
  | .clearances => r"clearances"
  | .aerial_won_pct => r"aerial_won_pct"
  | .def_act_att_3rd => r"def_act_att_3rd"
  | .psxg_plus_minus => r"psxg_plus_minus"
  | .save_pct => r"save_pct"
  | .cross_stop_pct => r"cross_stop_pct"
  | .launch_pct => r"launch_pct"
  | .opa_sweeper => r"opa_sweeper"

/-- The position groups of the engine. -/
inductive PosGroup where
  | FW | AM | CM | DM | DF | GK
  deriving DecidableEq

/-- `STAT_PROFILES`: per position group the ordered metric list with its
polarity (`true` = higher is better). -/
def profileOf : PosGroup → List (StatName × Bool)
  | .FW => [(.xg, true), (.npg, true), (.xag, true), (.gca90, true),
      (.prgc, true), (.succ_pct, true), (.touches_box, true)]
  | .AM => [(.xag, true), (.kp, true), (.prgp, true), (.gca90, true),
      (.prgc, true), (.touches_box, true)]
  | .CM => [(.xag, true), (.kp, true), (.cmp_pct, true), (.prgp, true),
      (.tkl_pct, true), (.interceptions, true), (.miscontrols, false), (.dispossessed, false)]
  | .DM => [(.cmp_pct, true), (.tkl_pct, true), (.interceptions, true), (.recoveries, true),
      (.prg_pass_dist, true), (.blocks, true), (.tkl_int, true), (.clearances, true)]
  | .DF => [(.aerial_won_pct, true), (.def_act_att_3rd, true), (.recoveries, true),
      (.prg_pass_dist, true), (.blocks, true), (.tkl_int, true), (.clearances, true)]
  | .GK => [(.psxg_plus_minus, true), (.save_pct, true), (.cross_stop_pct, true),
      (.launch_pct, true), (.opa_sweeper, true)]

def season2425 : String := r"2024-2025"

def season2526 : String := r"2025-2026"

def pctFragment : String := r"pct"

def gca90Name : String := r"gca90"

def tagGK : String := r"GK"

def tagFW : String := r"FW"

def tagMF : String := r"MF"

def tagDF : String := r"DF"

def comboMFFW : String := r"MF,FW"

def comboFWMF : String := r"FW,MF"

def comboMFDF : String := r"MF,DF"

def comboDFMF : String := r"DF,MF"

def nameOdegaard : String := r"Martin Ødegaard"

def namePalmer : String := r"Cole Palmer"

def nameDeBruyne : String := r"Kevin De Bruyne"

def nameRice : String := r"Declan Rice"

def nameRodri : String := r"Rodri"

def namePalhinha : String := r"João Palhinha"

def nameFernandes : String := r"Bruno Fernandes"

/-- The manual override table of `get_primary_position`, in Python dict
insertion order. -/
def overridesList : List (String × PosGroup) :=
  [(nameOdegaard, PosGroup.AM), (namePalmer, PosGroup.AM), (nameDeBruyne, PosGroup.AM),
   (nameRice, PosGroup.DM), (nameRodri, PosGroup.DM), (namePalhinha, PosGroup.DM),
   (nameFernandes, PosGroup.AM)]

/-- The dynamic-parsing branch of `get_primary_position`: ordered substring
tests on the upper-cased position string, `CM` as fallback. -/
def parsePos (pos_string : String) : PosGroup :=
  let s : List Char := pos_string.data.map Char.toUpper
  if hasSub s tagGK.data then PosGroup.GK
  else if hasSub s comboMFFW.data || hasSub s comboFWMF.data then PosGroup.AM
  else if hasSub s comboMFDF.data || hasSub s comboDFMF.data then PosGroup.DM
  else if hasSub s tagFW.data then PosGroup.FW
  else if hasSub s tagMF.data then PosGroup.CM
  else if hasSub s tagDF.data then PosGroup.DF
  else PosGroup.CM

/-- `get_primary_position(pos_string, player_name)`: first matching override
(override key a substring of the player name) wins, else dynamic parsing. -/
def get_primary_position (pos_string : String) (player_name : String) : PosGroup :=
  match overridesList.find? (fun e => strContains player_name e.1) with
  | some e => e.2
  | none => parsePos pos_string

/-- One row of the `players` table (the columns the engine reads).
`none` is SQL `NULL`. -/
structure PlayerRecord where
  name : String
  pos : String
  squad : String
  season : String
  age : Option ℚ
  n90s : Option ℚ
  stats : StatName → Option ℚ

/-- `season IN ('2024-2025', '2025-2026')`. -/
def allowedSeason (s : String) : Bool :=
  s == season2425 || s == season2526

/-- The target-player query:
`SELECT * FROM players WHERE name LIKE ? AND season IN (...)`. -/
def resolvePlayer (q : String) (db : List PlayerRecord) : List PlayerRecord :=
  db.filter (fun r => likeContains q r.name && allowedSeason r.season)

/-- SQL `n90s >= 5.0` (NULL compares false). -/
def n90sAtLeast5 : Option ℚ → Bool
  | some v => decide (5 ≤ v)
  | none => false

/-- `db_search_tag`: AM/CM/DM are mapped back to the raw tag `MF`; the other
groups search for their own tag. -/
def searchTag : PosGroup → String
  | .AM => tagMF
  | .CM => tagMF
  | .DM => tagMF
  | .FW => tagFW
  | .DF => tagDF
  | .GK => tagGK

/-- The peer query:
`SELECT * FROM players WHERE pos LIKE '%tag%' AND season IN (...) AND n90s >= 5.0`. -/
def fetchPeers (g : PosGroup) (db : List PlayerRecord) : List PlayerRecord :=
  db.filter (fun r =>
    likeContains (searchTag g) r.pos && allowedSeason r.season && n90sAtLeast5 r.n90s)

/-- pandas column mean with skip-null semantics: `none` iff every entry is
null, otherwise the mean of the non-null entries. -/
def meanOpt (xs : List (Option ℚ)) : Option ℚ :=
  let vs := xs.filterMap id
  if vs.isEmpty then none else some (vs.sum / (vs.length : ℚ))

/-- The "latest" biographical record: `player_df.iloc[1]` when two or more
records matched, `player_df.iloc[0]` otherwise. -/
def latestRecord (dfs : List PlayerRecord) : Option PlayerRecord :=
  if 2 ≤ dfs.length then dfs[1]? else dfs[0]?

/-- The blended player: numeric columns averaged by
`player_df.mean(numeric_only=True)` (skip-null), then name/pos/squad/age
overwritten from the latest record. -/
structure BlendedPlayer where
  name : String
  pos : String
  squad : String
  age : Option ℚ
  n90s : Option ℚ
  stats : StatName → Option ℚ

/-- Build the blended player from the matched records and the latest record. -/
def blendOf (dfs : List PlayerRecord) (latest : PlayerRecord) : BlendedPlayer :=
  { name := latest.name
    pos := latest.pos
    squad := latest.squad
    age := latest.age
    n90s := meanOpt (dfs.map (fun r => r.n90s))
    stats := fun s => meanOpt (dfs.map (fun r => r.stats s)) }

/-- `is_rate = 'pct' in stat or stat == 'gca90'`. -/
def isRate (s : StatName) : Bool :=
  strContains (statStr s) pctFragment || statStr s == gca90Name

/-- Element-wise float division with NULL/NaN propagation.  The `y = 0` case
is mapped to `none`: in the engine it is unreachable for peer rows because
the peer query enforces `n90s >= 5.0` (floats would give `inf` there, which
`ℚ` cannot represent). -/
def divOpt : Option ℚ → Option ℚ → Option ℚ
  | some x, some y => if y = 0 then none else some (x / y)
  | some _, none => none
  | none, _ => none

/-- Peer values for one metric: `peers_df[stat].fillna(0)` for rate metrics,
`(peers_df[stat] / peers_df['n90s']).fillna(0)` otherwise. -/
def peerValues (s : StatName) (peers : List PlayerRecord) : List ℚ :=
  if isRate s then peers.map (fun r => (r.stats s).getD 0)
  else peers.map (fun r => (divOpt (r.stats s) r.n90s).getD 0)

/-- The player's value for one metric: the raw blended value for rate
metrics (null as 0); otherwise the per-90 quotient, with 0 substituted when
the blended value is null or the blended `n90s` is not `> 0`. -/
def playerValue (s : StatName) (b : BlendedPlayer) : ℚ :=
  if isRate s then (b.stats s).getD 0
  else
    match b.stats s, b.n90s with
    | some x, some n => if 0 < n then x / n else 0
    | some _, none => 0
    | none, _ => 0

/-- Number of entries strictly below the score. -/
def cntLt (a : List ℚ) (x : ℚ) : ℕ :=
  a.countP (fun y => decide (y < x))

/-- Number of entries at or below the score. -/
def cntLe (a : List ℚ) (x : ℚ) : ℕ :=
  a.countP (fun y => decide (y ≤ x))

/-- `scipy.stats.percentileofscore` with the default `kind='rank'`:
`(left + right + (1 if right > left else 0)) * 50.0 / n`, `NaN` (`none`) on
an empty population. -/
def percentileOfScore (a : List ℚ) (x : ℚ) : Option ℚ :=
  if a.length = 0 then none
  else some (((cntLt a x : ℚ) + (cntLe a x : ℚ) +
      (if cntLt a x < cntLe a x then 1 else 0)) * 50 / (a.length : ℚ))

/-- One metric's polarity-adjusted percentile (0.0 to 1.0 scale):
`percentileofscore(peer_values, player_val) / 100`, inverted when lower is
better. -/
def metricPercentile (s : StatName) (hib : Bool) (b : BlendedPlayer)
    (peers : List PlayerRecord) : Option ℚ :=
  let base := (percentileOfScore (peerValues s peers) (playerValue s b)).map
    (fun p => p / 100)
  if hib then base else base.map (fun p => 1 - p)

/-- The `kind='rank'` percentile on the 0.0-1.0 scale, written as the count
quotient `(left + right + tie-indicator) / (2n)`. -/
def rankPct (a : List ℚ) (x : ℚ) : ℚ :=
  ((cntLt a x : ℚ) + (cntLe a x : ℚ) +
    (if cntLt a x < cntLe a x then 1 else 0)) / (2 * (a.length : ℚ))

/-- Modelled from the claim's words (not from the source): the mean-rank
percentile `(count_strictly_below + count_at_or_below) / (2n)`, i.e.
`percentileofscore` with `kind='mean'`. -/
def meanPct (a : List ℚ) (x : ℚ) : ℚ :=
  ((cntLt a x : ℚ) + (cntLe a x : ℚ)) / (2 * (a.length : ℚ))

/-- Modelled from the claim's words (not from the source): the
name-resolution query under case-SENSITIVE substring matching. -/
def resolveCaseSensitive (q : String) (db : List PlayerRecord) : List PlayerRecord :=
  db.filter (fun r => strContains r.name q && allowedSeason r.season)

/-- Float addition with NaN propagation. -/
def addOpt : Option ℚ → Option ℚ → Option ℚ
  | some v, some s => some (v + s)
  | some _, none => none
  | none, _ => none

/-- Python `sum` over the percentile dict values, with NaN propagation. -/
def sumOpt : List (Option ℚ) → Option ℚ
  | [] => some 0
  | x :: xs => addOpt x (sumOpt xs)

/-- `p_score = sum(percentiles.values()) / len(percentiles) * 10`.  The
profile list is never empty, so the division is by a positive count. -/
def pScore (pcts : List (Option ℚ)) : Option ℚ :=
  (sumOpt pcts).map (fun s => s / (pcts.length : ℚ) * 10)

/-- The elite-score bracket chain of `calculate_valuation` over definite
(non-NaN) age and P-Score. -/
def eliteScoreQ (age p : ℚ) : ℚ :=
  if age ≤ 23 ∧ 7.5 < p then (24 - age) * p * 3
  else if 23 < age ∧ age ≤ 31 ∧ 8 < p then p * 5 * ((32 - age) / 9)
  else if 32 ≤ age ∧ 7 < p then p * 2 * (1 / (age - 30))
  else 0

/-- The elite score with NULL handling: a null age falls back to 25.0; a NaN
P-Score fails every strict-greater gate, giving 0.0. -/
def eliteScoreN (ageOpt : Option ℚ) : Option ℚ → ℚ
  | some p => eliteScoreQ (ageOpt.getD 25) p
  | none => 0

/-- Python banker's rounding (`round`) of a rational to an integer. -/
def roundHE (x : ℚ) : ℤ :=
  let f := ⌊x⌋
  if x - f < 1/2 then f
  else if 1/2 < x - f then f + 1
  else if 2 ∣ f then f else f + 1

/-- `round(x, 2)`. -/
def round2 (x : ℚ) : ℚ :=
  ((roundHE (x * 100) : ℚ)) / 100

/-- `round(x, 1)`. -/
def round1 (x : ℚ) : ℚ :=
  ((roundHE (x * 10) : ℚ)) / 10

/-- The result dictionary of a successful valuation. -/
structure ValuationResult where
  name : String
  position_group : PosGroup
  age : ℚ
  squad : String
  p_score : Option ℚ
  market_value_m : Option ℚ
  percentiles : List (StatName × Option ℚ)
  deriving DecidableEq

/-- The outcome of `calculate_valuation`: the not-found error dictionary
(carrying the query string) or a full result. -/
inductive VOutcome where
  | notFound (query : String)
  | ok (r : ValuationResult)
  deriving DecidableEq

/-- Is the outcome a full valuation? -/
def VOutcome.isOk : VOutcome → Bool
  | .ok _ => true
  | .notFound _ => false

/-- The valuation computed for a blended player against the database:
position routing, peer fetch, per-metric percentiles, P-Score, elite score
and final rounded report. -/
def valuationOf (b : BlendedPlayer) (db : List PlayerRecord) : ValuationResult :=
  let g := get_primary_position b.pos b.name
  let peers := fetchPeers g db
  let pcts := (profileOf g).map (fun m => (m.1, metricPercentile m.1 m.2 b peers))
  let p := pScore (pcts.map (fun e => e.2))
  let elite := eliteScoreN b.age p
  { name := b.name
    position_group := g
    age := round1 (b.age.getD 25)
    squad := b.squad
    p_score := p.map round2
    market_value_m := p.map (fun q => round2 ((q * 5 + 5) + elite))
    percentiles := pcts.map (fun e => (e.1, e.2.map (fun v => round1 (v * 100)))) }

/-- The unrounded P-Score produced inside `valuationOf` (same pipeline). -/
def pipelinePScore (b : BlendedPlayer) (db : List PlayerRecord) : Option ℚ :=
  let g := get_primary_position b.pos b.name
  let peers := fetchPeers g db
  pScore (((profileOf g).map (fun m => (m.1, metricPercentile m.1 m.2 b peers))).map
    (fun e => e.2))

/-- `calculate_valuation(player_name)` over an explicit database value. -/
def calculate_valuation (player_name : String) (db : List PlayerRecord) : VOutcome :=
  match latestRecord (resolvePlayer player_name db) with
  | none => VOutcome.notFound player_name
  | some latest =>
      VOutcome.ok (valuationOf (blendOf (resolvePlayer player_name db) latest) db)

/-- Modelled from the spec's words (refinement side for position routing):
scan the override table in order and return the group of the first entry
whose name is a substring of the player name. -/
def overrideLookup : List (String × PosGroup) → String → Option PosGroup
  | [], _ => none
  | e :: rest, player =>
    if strContains player e.1 then some e.2 else overrideLookup rest player

/-- Modelled from the spec's words (refinement side): the ordered parsing
rules on the upper-cased raw position string, `CM` as the final fallback. -/
def parsePosSpec (pos_string : String) : PosGroup :=
  let s : List Char := pos_string.data.map Char.toUpper
  if hasSub s tagGK.data then PosGroup.GK
  else if hasSub s comboMFFW.data || hasSub s comboFWMF.data then PosGroup.AM
  else if hasSub s comboMFDF.data || hasSub s comboDFMF.data then PosGroup.DM
  else if hasSub s tagFW.data then PosGroup.FW
  else if hasSub s tagMF.data then PosGroup.CM
  else if hasSub s tagDF.data then PosGroup.DF
  else PosGroup.CM

/-- Modelled from the spec's words (refinement side): override first, then
parse the raw position string. -/
def get_primary_position_spec (player_name pos_string : String) : PosGroup :=
  match overrideLookup overridesList player_name with
  | some g => g
  | none => parsePosSpec pos_string

/- Concrete data used to instantiate the theorems below. -/

/-- A stat mapping with a single non-null metric, `succ_pct = 2`. -/
def statsTie : StatName → Option ℚ := fun s =>
  match s with
  | .succ_pct => some 2
  | _ => none

/-- A blended player whose `succ_pct` ties the peer values exactly. -/
def bTie : BlendedPlayer :=
  { name := r"Tie Player", pos := r"FW", squad := r"Club T", age := some 27,
    n90s := some 10, stats := statsTie }

/-- A peer row with the same `succ_pct` value as `bTie`. -/
def peerTie : PlayerRecord :=
  { name := r"Peer T", pos := r"FW", squad := r"Club T", season := season2425,
    age := some 25, n90s := some 10, stats := statsTie }

/-- Two peers, both tied with the player's value. -/
def peersTie : List PlayerRecord := [peerTie, peerTie]

/-- A peer row whose `succ_pct` is strictly below `bTie`'s. -/
def peerLow : PlayerRecord :=
  { name := r"Peer L", pos := r"FW", squad := r"Club T", season := season2425,
    age := some 25, n90s := some 10,
    stats := fun s => match s with | .succ_pct => some 1 | _ => none }

/-- A singleton peer population strictly below the player. -/
def peersLow : List PlayerRecord := [peerLow]

/-- A row whose name matches the override table's `"Cole Palmer"` entry. -/
def recPalmer : PlayerRecord :=
  { name := r"Cole Palmer", pos := r"MF", squad := r"Chelsea", season := season2425,
    age := some 23.3, n90s := some 10,
    stats := fun s => match s with | .xag => some 8 | .kp => some 50 | _ => none }

/-- A one-row database. -/
def dbPalmer : List PlayerRecord := [recPalmer]

/-- An upper-cased query that is not a case-sensitive substring of
`"Cole Palmer"` but matches it under SQLite LIKE. -/
def qPalmerUpper : String := r"PALMER"

def qCole : String := r"Cole"

def qZzz : String := r"Zzzznonexistent"

/-- A row whose `n90s` is below the peer threshold of 5.0. -/
def recBench : PlayerRecord :=
  { name := r"Bench Warmer", pos := r"FW", squad := r"Club B", season := season2425,
    age := some 21, n90s := some 1,
    stats := fun s => match s with | .xg => some 1 | _ => none }

def qBench : String := r"Bench"

/-- A row whose `n90s` is NULL. -/
def recNoMin : PlayerRecord :=
  { name := r"Ghost Player", pos := r"DF", squad := r"Club G", season := season2526,
    age := none, n90s := none, stats := fun _ => none }

def qGhost : String := r"Ghost"

/-- A row whose raw position string is lower-case `"mf"`. -/
def recLowerMF : PlayerRecord :=
  { name := r"Lower Case", pos := r"mf", squad := r"Club L", season := season2425,
    age := some 25, n90s := some 10, stats := fun _ => none }

def dbLowerMF : List PlayerRecord := [recLowerMF]

/-- First of two season rows differing only in `xg` (10 vs 20). -/
def recA : PlayerRecord :=
  { name := r"Blend Player", pos := r"MF", squad := r"Club X", season := season2425,
    age := some 24, n90s := some 10,
    stats := fun s => match s with | .xg => some 10 | _ => none }

/-- Second of two season rows differing only in `xg` (10 vs 20), one season
later (age one year higher). -/
def recB : PlayerRecord :=
  { name := r"Blend Player", pos := r"MF", squad := r"Club X", season := season2526,
    age := some 25, n90s := some 10,
    stats := fun s => match s with | .xg => some 20 | _ => none }

/- Shared helper lemmas. -/

theorem cntLt_le_cntLe (a : List ℚ) (x : ℚ) : cntLt a x ≤ cntLe a x := by
  apply List.countP_mono_left
  intro y _ hy
  simp only [decide_eq_true_eq] at hy ⊢
  exact le_of_lt hy

theorem cntLe_le_length (a : List ℚ) (x : ℚ) : cntLe a x ≤ a.length :=
  List.countP_le_length _

theorem peerValues_length (s : StatName) (peers : List PlayerRecord) :
    (peerValues s peers).length = peers.length := by
  by_cases h : isRate s = true <;> simp [peerValues, h]

theorem metricPercentile_eq_rankPct (s : StatName) (hib : Bool) (b : BlendedPlayer)
    (peers : List PlayerRecord) (hne : peers ≠ []) :
    metricPercentile s hib b peers =
      some (if hib = true then rankPct (peerValues s peers) (playerValue s b)
        else 1 - rankPct (peerValues s peers) (playerValue s b)) := by
  have hlen : (peerValues s peers).length ≠ 0 := by
    rw [peerValues_length]
    exact fun h0 => hne (List.length_eq_zero.mp h0)
  have hq : ((peerValues s peers).length : ℚ) ≠ 0 := Nat.cast_ne_zero.mpr hlen
  have base_eq : (percentileOfScore (peerValues s peers) (playerValue s b)).map
      (fun p => p / 100) = some (rankPct (peerValues s peers) (playerValue s b)) := by
    rw [percentileOfScore, if_neg hlen, Option.map_some', rankPct]
    congr 1
    field_simp
    ring
  cases hib
  · simp [metricPercentile, base_eq]
  · simp [metricPercentile, base_eq]

theorem rankPct_nonneg (a : List ℚ) (x : ℚ) : 0 ≤ rankPct a x := by
  rw [rankPct]
  apply div_nonneg
  · have h1 : (0:ℚ) ≤ (cntLt a x : ℚ) := Nat.cast_nonneg _
    have h2 : (0:ℚ) ≤ (cntLe a x : ℚ) := Nat.cast_nonneg _
    by_cases hc : cntLt a x < cntLe a x
    · rw [if_pos hc]; linarith
    · rw [if_neg hc]; linarith
  · positivity

theorem rankPct_le_one (a : List ℚ) (x : ℚ) (h : a ≠ []) : rankPct a x ≤ 1 := by
  have hl := cntLt_le_cntLe a x
  have hr := cntLe_le_length a x
  have hn : 0 < a.length := List.length_pos.mpr h
  have hlen0 : (0:ℚ) < (a.length : ℚ) := by exact_mod_cast hn
  have hpos : (0:ℚ) < 2 * (a.length : ℚ) := by linarith
  rw [rankPct, div_le_one hpos]
  have h2 : (cntLt a x : ℚ) ≤ (cntLe a x : ℚ) := by exact_mod_cast hl
  have h3 : (cntLe a x : ℚ) ≤ (a.length : ℚ) := by exact_mod_cast hr
  by_cases hc : cntLt a x < cntLe a x
  · rw [if_pos hc]
    have h4 : (cntLt a x : ℚ) + 1 ≤ (cntLe a x : ℚ) := by exact_mod_cast hc
    linarith
  · rw [if_neg hc]
    linarith

theorem latestRecord_eq_none_iff (l : List PlayerRecord) :
    latestRecord l = none ↔ l.length = 0 := by
  rw [latestRecord]
  by_cases h : 2 ≤ l.length
  · rw [if_pos h, List.getElem?_eq_none_iff]
    constructor
    · intro h1; omega
    · intro h1; omega
  · rw [if_neg h, List.getElem?_eq_none_iff]
    constructor
    · intro h1; omega
    · intro h1; omega

theorem latestRecord_exists (l : List PlayerRecord) (h : 0 < l.length) :
    ∃ x, latestRecord l = some x := by
  cases hl : latestRecord l with
  | some x => exact ⟨x, rfl⟩
  | none =>
    rw [latestRecord_eq_none_iff] at hl
    omega

theorem sumOpt_map_some (vs : List ℚ) : sumOpt (vs.map some) = some vs.sum := by
  induction vs with
  | nil => simp [sumOpt]
  | cons v t ih => simp [sumOpt, addOpt, ih]

theorem n90sAtLeast5_iff (x : Option ℚ) :
    n90sAtLeast5 x = true ↔ ∃ v, x = some v ∧ 5 ≤ v := by
  cases x <;> simp [n90sAtLeast5]

theorem overrideLookup_eq_find (l : List (String × PosGroup)) (player : String) :
    overrideLookup l player =
      (l.find? (fun e => strContains player e.1)).map Prod.snd := by
  induction l with
  | nil => rfl
  | cons e rest ih =>
    simp only [overrideLookup, List.find?]
    by_cases h : strContains player e.1 = true
    · simp [h]
    · simp [h, ih]

/-- C1 (amended): for every metric in the resolved group's profile and a
non-empty peer set, the metric is a rate metric exactly when its name
contains `pct` or equals `gca90`; the adjusted percentile is defined and
equals scipy's default `kind='rank'` value — `(count_strictly_below +
count_at_or_below + tie-indicator) / (2n)` on the extracted peer values and
player value — inverted when the polarity is lower-is-better. -/
theorem C1_percentile_rank (g : PosGroup) (s : StatName) (hib : Bool)
    (_hmem : (s, hib) ∈ profileOf g) (b : BlendedPlayer) (peers : List PlayerRecord)
    (hne : peers ≠ []) :
    isRate s = (strContains (statStr s) pctFragment || statStr s == gca90Name) ∧
    metricPercentile s hib b peers =
      some (if hib = true then rankPct (peerValues s peers) (playerValue s b)
        else 1 - rankPct (peerValues s peers) (playerValue s b)) :=
  ⟨rfl, metricPercentile_eq_rankPct s hib b peers hne⟩

/-- C1 witness: the theorem instantiated at the FW profile's `succ_pct`
with a concrete player and two concrete peers. -/
theorem C1_percentile_rank_witness :
    isRate StatName.succ_pct = (strContains (statStr StatName.succ_pct) pctFragment ||
      statStr StatName.succ_pct == gca90Name) ∧
    metricPercentile StatName.succ_pct true bTie peersTie =
      some (if true = true then
          rankPct (peerValues StatName.succ_pct peersTie) (playerValue StatName.succ_pct bTie)
        else
          1 - rankPct (peerValues StatName.succ_pct peersTie)
            (playerValue StatName.succ_pct bTie)) :=
  C1_percentile_rank PosGroup.FW StatName.succ_pct true (by decide) bTie peersTie
    (by simp [peersTie])

/-- C1 counterexample: with two peers both equal to the player's value 2,
the engine yields percentile 0.75 (scipy `kind='rank'`), while the claimed
mean-rank midpoint `(count_strictly_below + count_at_or_below) / (2n)`
yields 0.5. -/
theorem C1_mean_rank_counterexample :
    metricPercentile StatName.succ_pct true bTie peersTie = some (3/4) ∧
    meanPct (peerValues StatName.succ_pct peersTie) (playerValue StatName.succ_pct bTie)
      = 1/2 ∧
    (3/4 : ℚ) ≠ 1/2 := by
  have hrate : isRate StatName.succ_pct = true := rfl
  have hvals : peerValues StatName.succ_pct peersTie = [2, 2] := by
    simp [peerValues, hrate, peersTie, peerTie, statsTie]
  have hval : playerValue StatName.succ_pct bTie = 2 := by
    simp [playerValue, hrate, bTie, statsTie]
  have hlt : cntLt [(2:ℚ), 2] 2 = 0 := by
    simp [cntLt, List.countP_cons, List.countP_nil]
  have hle : cntLe [(2:ℚ), 2] 2 = 2 := by
    simp [cntLe, List.countP_cons, List.countP_nil]
  refine ⟨?_, ?_, by norm_num⟩
  · rw [metricPercentile_eq_rankPct _ _ _ _ (by simp [peersTie])]
    rw [if_pos rfl, hvals, hval, rankPct, hlt, hle]
    norm_num
  · rw [hvals, hval, meanPct, hlt, hle]
    norm_num

/-- C2: the elite score follows the three age-ranged, score-gated brackets
in order with 0.0 as fallback; a null blended age falls back to 25.0; the
gate at age 23 with P-Score exactly 7.5 is strict; every age strictly
between 31 and 32 yields 0.0. -/
theorem C2_elite_brackets (a p : ℚ) :
    (∀ q : ℚ, eliteScoreN none (some q) = eliteScoreQ 25 q) ∧
    (a ≤ 23 → 7.5 < p → eliteScoreQ a p = (24 - a) * p * 3) ∧
    (23 < a → a ≤ 31 → 8 < p → eliteScoreQ a p = p * 5 * ((32 - a) / 9)) ∧
    (32 ≤ a → 7 < p → eliteScoreQ a p = p * 2 * (1 / (a - 30))) ∧
    (¬(a ≤ 23 ∧ 7.5 < p) → ¬(23 < a ∧ a ≤ 31 ∧ 8 < p) → ¬(32 ≤ a ∧ 7 < p) →
      eliteScoreQ a p = 0) ∧
    eliteScoreQ 23 7.5 = 0 ∧
    eliteScoreQ 23 7.51 = (24 - 23) * 7.51 * 3 ∧
    (31 < a → a < 32 → eliteScoreQ a p = 0) := by
  refine ⟨fun q => rfl, ?_, ?_, ?_, ?_, ?_, ?_, ?_⟩
  · intro h1 h2
    rw [eliteScoreQ, if_pos ⟨h1, h2⟩]
  · intro h1 h2 h3
    rw [eliteScoreQ, if_neg (by rintro ⟨hc, _⟩; linarith), if_pos ⟨h1, h2, h3⟩]
  · intro h1 h2
    rw [eliteScoreQ, if_neg (by rintro ⟨hc, _⟩; linarith),
      if_neg (by rintro ⟨_, hc, _⟩; linarith), if_pos ⟨h1, h2⟩]
  · intro h1 h2 h3
    rw [eliteScoreQ, if_neg h1, if_neg h2, if_neg h3]
  · norm_num [eliteScoreQ]
  · norm_num [eliteScoreQ]
  · intro h1 h2
    rw [eliteScoreQ, if_neg (by rintro ⟨hc, _⟩; linarith),
      if_neg (by rintro ⟨_, hc, _⟩; linarith), if_neg (by rintro ⟨hc, _⟩; linarith)]

/-- C2 witness: an under-23 player with P-Score 8 receives the Elite
Prospect bonus formula. -/
theorem C2_elite_brackets_witness : eliteScoreQ 20 8 = (24 - 20) * 8 * 3 :=
  (C2_elite_brackets 20 8).2.1 (by norm_num) (by norm_num)

/-- C5: position-group resolution equals the spec's description — the group
of the first override entry whose name is a substring of the player name,
else the ordered substring rules on the upper-cased position string with CM
fallback. -/
theorem C5_position_resolution (pos_string player_name : String) :
    get_primary_position pos_string player_name =
      get_primary_position_spec player_name pos_string := by
  rw [get_primary_position, get_primary_position_spec, overrideLookup_eq_find]
  cases h : overridesList.find? (fun e => strContains player_name e.1) with
  | none => rfl
  | some e => rfl

/-- C7 (amended): on a non-empty peer population every polarity-adjusted
percentile is defined and lies in the closed interval from 0.0 to 1.0 (the
endpoints are attained, so the open interval of the claim fails); on an
empty population the percentile is NaN (undefined). -/
theorem C7_percentile_bounds (s : StatName) (hib : Bool) (b : BlendedPlayer)
    (peers : List PlayerRecord) :
    (peers ≠ [] → ∃ p, metricPercentile s hib b peers = some p ∧ 0 ≤ p ∧ p ≤ 1) ∧
    metricPercentile s hib b [] = none := by
  constructor
  · intro hne
    have hb := metricPercentile_eq_rankPct s hib b peers hne
    have hvals_ne : peerValues s peers ≠ [] := by
      intro h0
      apply hne
      have hl := peerValues_length s peers
      rw [h0] at hl
      exact List.length_eq_zero.mp hl.symm
    have h0 := rankPct_nonneg (peerValues s peers) (playerValue s b)
    have h1 := rankPct_le_one (peerValues s peers) (playerValue s b) hvals_ne
    cases hib
    · rw [if_neg (by simp)] at hb
      exact ⟨_, hb, by linarith, by linarith⟩
    · rw [if_pos rfl] at hb
      exact ⟨_, hb, h0, h1⟩
  · cases hib <;> by_cases h : isRate s = true <;>
      simp [metricPercentile, peerValues, percentileOfScore, h]

/-- C7 witness: the amended bounds instantiated at a concrete player and
non-empty peer set. -/
theorem C7_percentile_bounds_witness :
    ∃ p, metricPercentile StatName.succ_pct true bTie peersTie = some p ∧ 0 ≤ p ∧ p ≤ 1 :=
  (C7_percentile_bounds StatName.succ_pct true bTie peersTie).1 (by simp [peersTie])

/-- C7 counterexample: a player strictly above a singleton peer population
receives adjusted percentile exactly 1.0, which does not lie strictly
inside the open interval. -/
theorem C7_open_interval_counterexample :
    metricPercentile StatName.succ_pct true bTie peersLow = some 1 ∧ ¬(1:ℚ) < 1 := by
  have hrate : isRate StatName.succ_pct = true := rfl
  have hvals : peerValues StatName.succ_pct peersLow = [1] := by
    simp [peerValues, hrate, peersLow, peerLow]
  have hval : playerValue StatName.succ_pct bTie = 2 := by
    simp [playerValue, hrate, bTie, statsTie]
  have hlt : cntLt [(1:ℚ)] 2 = 1 := by
    simp [cntLt, List.countP_cons, List.countP_nil]
  have hle : cntLe [(1:ℚ)] 2 = 1 := by
    simp [cntLe, List.countP_cons, List.countP_nil]
  refine ⟨?_, by norm_num⟩
  rw [metricPercentile_eq_rankPct _ _ _ _ (by simp [peersLow])]
  rw [if_pos rfl, hvals, hval, rankPct, hlt, hle]
  norm_num

/-- C9: the elite score is non-negative for every age and P-Score (each
bracket formula is non-negative under its own gate, the fallback is 0.0),
so the market value is never below the base value `P * 5 + 5`. -/
theorem C9_elite_nonneg :
    (∀ ageOpt pOpt : Option ℚ, 0 ≤ eliteScoreN ageOpt pOpt) ∧
    (∀ a p : ℚ, 0 ≤ eliteScoreQ a p) ∧
    (∀ a p v : ℚ, v * 5 + 5 ≤ (v * 5 + 5) + eliteScoreQ a p) := by
  have key : ∀ a p : ℚ, 0 ≤ eliteScoreQ a p := by
    intro a p
    rw [eliteScoreQ]
    split_ifs with h1 h2 h3
    · have hp : (0:ℚ) < p := by linarith [h1.2]
      have ha : (0:ℚ) < 24 - a := by linarith [h1.1]
      nlinarith
    · have hp : (0:ℚ) < p := by linarith [h2.2.2]
      have ha : (0:ℚ) < (32 - a) / 9 := by
        have h32 : (0:ℚ) < 32 - a := by linarith [h2.2.1]
        exact div_pos h32 (by norm_num)
      nlinarith
    · have hp : (0:ℚ) < p := by linarith [h3.2]
      have ha : (0:ℚ) < 1 / (a - 30) := by
        have h30 : (0:ℚ) < a - 30 := by linarith [h3.1]
        exact div_pos one_pos h30
      nlinarith
    · exact le_refl 0
  refine ⟨?_, key, fun a p v => by linarith [key a p]⟩
  intro ageOpt pOpt
  cases pOpt with
  | none => exact le_refl _
  | some p => exact key _ p

/-- C3: every successful valuation reports
`round(P * 5 + 5 + eliteScore, 2)` as market value, where the unrounded
P-Score is the mean of the per-metric percentiles scaled by 10; the
end-to-end numbers of the claim — age 27 with P-Score 10 gets elite score
`10 * 5 * ((32 - 27) / 9) = 250/9` and market value `745/9`, rounded to
82.78. -/
theorem C3_market_value :
    (∀ (q : String) (db : List PlayerRecord), 0 < (resolvePlayer q db).length →
      ∃ b, calculate_valuation q db = VOutcome.ok (valuationOf b db) ∧
        (valuationOf b db).market_value_m = (pipelinePScore b db).map
          (fun v => round2 ((v * 5 + 5) + eliteScoreN b.age (pipelinePScore b db)))) ∧
    (∀ vs : List ℚ, pScore (vs.map some) = some (vs.sum / (vs.length : ℚ) * 10)) ∧
    eliteScoreQ 27 10 = 10 * 5 * ((32 - 27) / 9) ∧
    (10 * 5 + 5 : ℚ) + 10 * 5 * ((32 - 27) / 9) = 745 / 9 ∧
    round2 (745 / 9) = 82.78 := by
  refine ⟨?_, ?_, ?_, by norm_num, ?_⟩
  · intro q db hq
    obtain ⟨latest, hl⟩ := latestRecord_exists _ hq
    refine ⟨blendOf (resolvePlayer q db) latest, ?_, rfl⟩
    simp [calculate_valuation, hl]
  · intro vs
    rw [pScore, sumOpt_map_some, Option.map_some', List.length_map]
  · norm_num [eliteScoreQ]
  · have hfl : ⌊(745 / 9 : ℚ) * 100⌋ = 8277 := by
      norm_num [Int.floor_eq_iff]
    rw [round2, roundHE, hfl]
    norm_num

/-- C3 witness: a concrete one-row database, successfully valued, reports
the rounded base-plus-elite market value. -/
theorem C3_market_value_witness :
    ∃ b, calculate_valuation qCole dbPalmer = VOutcome.ok (valuationOf b dbPalmer) ∧
      (valuationOf b dbPalmer).market_value_m = (pipelinePScore b dbPalmer).map
        (fun v => round2 ((v * 5 + 5) + eliteScoreN b.age (pipelinePScore b dbPalmer))) :=
  C3_market_value.1 qCole dbPalmer (by decide)

/-- C4: the blended record's numeric metrics are null-aware element-wise
means over all matched records, while name, position, squad and age are
taken from the record at collection index 0 for a single match and index 1
for two or more matches; the concrete two-record instance blends 10 and 20
to 15, with biography from the second record. -/
theorem C4_blend :
    (∀ (dfs : List PlayerRecord) (latest : PlayerRecord), latestRecord dfs = some latest →
      (∀ s, (blendOf dfs latest).stats s = meanOpt (dfs.map (fun r => r.stats s))) ∧
      (blendOf dfs latest).n90s = meanOpt (dfs.map (fun r => r.n90s)) ∧
      (blendOf dfs latest).name = latest.name ∧
      (blendOf dfs latest).pos = latest.pos ∧
      (blendOf dfs latest).squad = latest.squad ∧
      (blendOf dfs latest).age = latest.age) ∧
    (∀ xs : List (Option ℚ), meanOpt (none :: xs) = meanOpt xs) ∧
    (∀ dfs : List PlayerRecord, dfs.length = 1 → latestRecord dfs = dfs[0]?) ∧
    (∀ dfs : List PlayerRecord, 2 ≤ dfs.length → latestRecord dfs = dfs[1]?) ∧
    latestRecord [recA, recB] = some recB ∧
    (blendOf [recA, recB] recB).stats StatName.xg = some 15 ∧
    (blendOf [recA, recB] recB).pos = recB.pos ∧
    (blendOf [recA, recB] recB).squad = recB.squad ∧
    (blendOf [recA, recB] recB).age = recB.age := by
  refine ⟨fun dfs latest _ => ⟨fun s => rfl, rfl, rfl, rfl, rfl, rfl⟩,
    ?_, ?_, ?_, rfl, ?_, rfl, rfl, rfl⟩
  · intro xs
    simp [meanOpt, List.filterMap_cons]
  · intro dfs h
    rw [latestRecord, if_neg (by omega)]
  · intro dfs h
    rw [latestRecord, if_pos h]
  · show meanOpt ([recA, recB].map (fun r => r.stats StatName.xg)) = some 15
    have hxs : [recA, recB].map (fun r => r.stats StatName.xg) = [some 10, some 20] := by
      simp [recA, recB]
    rw [hxs, meanOpt]
    norm_num [List.filterMap_cons]

/-- C4 witness: the blend characterization instantiated at the concrete
two-record list with its latest record. -/
theorem C4_blend_witness :
    (∀ s, (blendOf [recA, recB] recB).stats s =
      meanOpt ([recA, recB].map (fun r => r.stats s))) ∧
    (blendOf [recA, recB] recB).n90s = meanOpt ([recA, recB].map (fun r => r.n90s)) ∧
    (blendOf [recA, recB] recB).name = recB.name ∧
    (blendOf [recA, recB] recB).pos = recB.pos ∧
    (blendOf [recA, recB] recB).squad = recB.squad ∧
    (blendOf [recA, recB] recB).age = recB.age :=
  C4_blend.1 [recA, recB] recB rfl

/-- C6 (amended): `calculate_valuation` returns the not-found outcome
carrying the original query string exactly when the name-resolution query
(SQLite LIKE, case-insensitive for ASCII) returns zero records; otherwise
it returns a full result, and no other error kind exists. -/
theorem C6_not_found (q : String) (db : List PlayerRecord) :
    (calculate_valuation q db = VOutcome.notFound q ↔ (resolvePlayer q db).length = 0) ∧
    (∀ s, calculate_valuation q db = VOutcome.notFound s → s = q) ∧
    ((resolvePlayer q db).length ≠ 0 → ∃ r, calculate_valuation q db = VOutcome.ok r) := by
  cases h : latestRecord (resolvePlayer q db) with
  | none =>
    have hlen : (resolvePlayer q db).length = 0 := (latestRecord_eq_none_iff _).mp h
    refine ⟨?_, ?_, ?_⟩
    · simp [calculate_valuation, h, hlen]
    · intro s hs
      simp [calculate_valuation, h] at hs
      exact hs.symm
    · intro hne
      exact absurd hlen hne
  | some latest =>
    have hlen : (resolvePlayer q db).length ≠ 0 := by
      intro h0
      rw [← latestRecord_eq_none_iff] at h0
      rw [h] at h0
      cases h0
    refine ⟨?_, ?_, ?_⟩
    · simp [calculate_valuation, h, hlen]
    · intro s hs
      simp [calculate_valuation, h] at hs
    · intro _
      exact ⟨valuationOf (blendOf (resolvePlayer q db) latest) db,
        by simp [calculate_valuation, h]⟩

/-- C6 witness: the spec's not-found scenario — an unmatched query returns
the not-found outcome carrying the query string. -/
theorem C6_not_found_witness :
    calculate_valuation qZzz ([] : List PlayerRecord) = VOutcome.notFound qZzz :=
  (C6_not_found qZzz []).1.mpr (by decide)

/-- C6 counterexample: the query `"PALMER"` is not a case-sensitive
substring of the sole record's name `"Cole Palmer"` (the claim's
case-sensitive query returns zero records), yet the engine resolves it via
SQLite LIKE and returns a full valuation, not the not-found outcome. -/
theorem C6_case_sensitivity_counterexample :
    (resolveCaseSensitive qPalmerUpper dbPalmer).length = 0 ∧
    (calculate_valuation qPalmerUpper dbPalmer).isOk = true ∧
    calculate_valuation qPalmerUpper dbPalmer ≠ VOutcome.notFound qPalmerUpper := by
  refine ⟨by decide, by decide, by decide⟩

/-- C8 (amended): the fetched peer set contains exactly the database rows
whose raw position string contains the group's search tag under SQLite
LIKE's ASCII-case-insensitive matching (not plain case-sensitive
containment), whose season lies in the allowed two-season set, and whose
`n90s` is at least 5.0; AM/CM/DM search for `MF`, the other groups for
their own tag. -/
theorem C8_peer_filter :
    (∀ (g : PosGroup) (db : List PlayerRecord) (r : PlayerRecord),
      r ∈ fetchPeers g db ↔
        r ∈ db ∧ likeContains (searchTag g) r.pos = true ∧
          (r.season = season2425 ∨ r.season = season2526) ∧
          ∃ v, r.n90s = some v ∧ 5 ≤ v) ∧
    searchTag PosGroup.AM = tagMF ∧ searchTag PosGroup.CM = tagMF ∧
    searchTag PosGroup.DM = tagMF ∧ searchTag PosGroup.FW = tagFW ∧
    searchTag PosGroup.DF = tagDF ∧ searchTag PosGroup.GK = tagGK := by
  refine ⟨?_, rfl, rfl, rfl, rfl, rfl, rfl⟩
  intro g db r
  simp [fetchPeers, List.mem_filter, Bool.and_eq_true, allowedSeason, n90sAtLeast5_iff,
    and_assoc]

/-- C8 counterexample: a row with lower-case position `"mf"` is fetched for
the CM group although its raw position string does not contain the search
substring `"MF"` — the claimed case-sensitive containment is violated. -/
theorem C8_case_sensitivity_counterexample :
    (fetchPeers PosGroup.CM dbLowerMF).length = 1 ∧
    strContains recLowerMF.pos (searchTag PosGroup.CM) = false := by
  refine ⟨by decide, by decide⟩

/-- C10: the minimum playing-time threshold applies only to the peer query
— the name-resolution predicate mentions no `n90s` condition, and concrete
players whose only record has `n90s = 1` or `n90s = NULL` still receive a
full valuation (with an empty peer set for the latter two databases). -/
theorem C10_no_minutes_threshold_on_target :
    (∀ (q : String) (db : List PlayerRecord) (r : PlayerRecord),
      r ∈ resolvePlayer q db ↔
        r ∈ db ∧ likeContains q r.name = true ∧
          (r.season = season2425 ∨ r.season = season2526)) ∧
    recBench.n90s = some 1 ∧
    (calculate_valuation qBench [recBench]).isOk = true ∧
    recNoMin.n90s = none ∧
    (calculate_valuation qGhost [recNoMin]).isOk = true ∧
    (fetchPeers (get_primary_position recBench.pos recBench.name) [recBench]).length = 0 := by
  refine ⟨?_, rfl, by decide, rfl, by decide, by decide⟩
  intro q db r
  simp [resolvePlayer, List.mem_filter, Bool.and_eq_true, allowedSeason, and_assoc]

end VigiBall
